import Mathlib

/-!
Shallow embedding of the module-scaffolding program (src/module.py and
src/main.py) and proofs of the specification claims.

Paths are modelled as lists of path segments (the slash-split form of the
Python path strings); the filesystem is an association list from paths to
entries (directory, or file with string content).  The fallible filesystem
calls (os.makedirs, open(..., 'w')) are modelled in the Except monad:
os.makedirs creates every missing ancestor as a directory and raises when a
path component already exists as a file; open(..., 'w') raises when the
target is a directory or the parent directory is missing.  Timestamps
(datetime.now()) are modelled by a clock parameter Nat -> String, sampled
once per create_files call.
-/

namespace Scaffold

/-- A filesystem path, as its list of slash-separated segments. -/
abbrev Path := List String

/-- A filesystem entry: a directory, or a file with its content. -/
inductive Entry where
  | dir : Entry
  | file : String → Entry
deriving DecidableEq

/-- The filesystem: an association list from paths to entries. -/
abbrev FS := List (Path × Entry)

/-- Look an entry up by path (first match). -/
def lookupFS : FS → Path → Option Entry
  | [], _ => none
  | (q, e) :: rest, p => if q = p then some e else lookupFS rest p

/-- Replace the entry at a path, or append it when absent. -/
def setFS : FS → Path → Entry → FS
  | [], p, e => [(p, e)]
  | (q, d) :: rest, p, e => if q = p then (p, e) :: rest else (q, d) :: setFS rest p e

/-- Model of os.path.exists. -/
def pathExists (fs : FS) (p : Path) : Bool :=
  (lookupFS fs p).isSome

/-- The path is bound to a directory. -/
def isDirAt (fs : FS) (p : Path) : Bool :=
  match lookupFS fs p with
  | some .dir => true
  | _ => false

/-- The path is bound to a file. -/
def isFileAt (fs : FS) (p : Path) : Bool :=
  match lookupFS fs p with
  | some (.file _) => true
  | _ => false

/-- All nonempty initial segments of a path: the chain of directories
os.makedirs has to create for it, ending with the path itself. -/
def ancestors (p : Path) : List Path :=
  (List.range p.length).map (fun i => p.take (i + 1))

/-- Walk a list of paths, creating each as a directory when absent and
failing when one is already a file (the recursive body of os.makedirs). -/
def mkdirsAux : FS → List Path → Except String FS
  | fs, [] => .ok fs
  | fs, a :: rest =>
    match lookupFS fs a with
    | some .dir => mkdirsAux fs rest
    | some (.file _) => .error "FileExistsError"
    | none => mkdirsAux (setFS fs a .dir) rest

/-- Model of os.makedirs(p, exist_ok=True): create all missing ancestors. -/
def mkdirs (fs : FS) (p : Path) : Except String FS :=
  mkdirsAux fs (ancestors p)

/-- Pure mirror of mkdirsAux, used to name its result when no file is in
the way. -/
def mkdirsPure : FS → List Path → FS
  | fs, [] => fs
  | fs, a :: rest =>
    match lookupFS fs a with
    | none => mkdirsPure (setFS fs a .dir) rest
    | some _ => mkdirsPure fs rest

/-- Model of open(p, 'w') followed by a single write: fails when p is a
directory or when its parent directory is missing; otherwise creates or
truncates the file with the given content. -/
def writeFile (fs : FS) (p : Path) (content : String) : Except String FS :=
  match lookupFS fs p with
  | some .dir => .error "IsADirectoryError"
  | some (.file _) => .ok (setFS fs p (.file content))
  | none =>
    if p.length ≤ 1 then .ok (setFS fs p (.file content))
    else
      match lookupFS fs p.dropLast with
      | some .dir => .ok (setFS fs p (.file content))
      | _ => .error "FileNotFoundError"

/-- Python str.capitalize: first character title-cased (upper-cased for
ASCII), all following characters lower-cased. -/
def pyCapitalize (s : String) : String :=
  match s.data with
  | [] => ""
  | c :: cs => String.mk (c.toUpper :: cs.map Char.toLower)

/-- Render a segment-list path back to the Python path string. -/
def renderPath : Path → String
  | [] => ""
  | [s] => s
  | s :: rest => s ++ "/" ++ renderPath rest

/-- Split a character list at every slash (the recursion behind Python
str.split applied to a path). -/
def splitSegs : List Char → List (List Char)
  | [] => [[]]
  | c :: cs =>
    let r := splitSegs cs
    if c = '/' then [] :: r
    else (c :: r.headD []) :: r.tail

/-- Split a Python path string into its segment list. -/
def toPath (s : String) : Path :=
  (splitSegs s.data).map String.mk

/-- The templated content written to the first file of the file template
(module.py line 145), with the datetime.now() rendering passed in. -/
def readmeContent (m : Path) (now : String) : String :=
  "# " ++ pyCapitalize (renderPath m) ++ "\nCreated -> " ++ now ++
    "\nAuthor -> \n\n## Description\n\n"

/-- The fixed directory template of Module.__init__ (dir_structure
key directories). -/
def directoriesTemplate : List (String × List String) :=
  [("data", ["raw", "processed", "output"]),
   ("docs", ["api", "design", "notes", "reports"]),
   ("assets", ["images", "text"]),
   ("src", ["components", "models", "utils", "include"]),
   ("tests", ["unit", "integration", "e2e"]),
   ("scripts", ["js", "py"]),
   ("tools", ["build", "deploy"])]

/-- The fixed file template of Module.__init__ (dir_structure key files). -/
def filesTemplate : List String :=
  ["README.md", "CONTRIBUTING.md", "LICENSE", "package.json", ".gitignore"]

/-- The dir_structure dictionary built by Module.__init__. -/
structure Module where
  module_names : List Path
  directories : List (String × List String)
  files : List String
deriving DecidableEq

/-- Module.__init__: store the requested names together with the fixed
directory and file templates. -/
def Module.init (module_names : List Path) : Module :=
  ⟨module_names, directoriesTemplate, filesTemplate⟩

/-- Module.create_module: create the root directory when the path does not
exist yet (returning true), otherwise do nothing (returning false). -/
def Module.create_module (_self : Module) (m : Path) (fs : FS) :
    Except String (Bool × FS) :=
  if pathExists fs m then .ok (false, fs)
  else do
    let fs' ← mkdirs fs m
    .ok (true, fs')

/-- The inner loop of Module.create_subdirectories: create the listed
sub-subdirectories of one top-level directory. -/
def mkSubDirs (m : Path) (d : String) : List String → FS → Except String FS
  | [], fs => .ok fs
  | s :: rest, fs => do
    let fs1 ← mkdirs fs (m ++ [d, s])
    mkSubDirs m d rest fs1

/-- The outer loop of Module.create_subdirectories: for each template entry
create the top-level directory, then its sub-subdirectories. -/
def mkTopDirs (m : Path) : List (String × List String) → FS → Except String FS
  | [], fs => .ok fs
  | (d, subs) :: rest, fs => do
    let fs1 ← mkdirs fs (m ++ [d])
    let fs2 ← mkSubDirs m d subs fs1
    mkTopDirs m rest fs2

/-- Module.create_subdirectories: create every template directory under the
module, then return true. -/
def Module.create_subdirectories (self : Module) (m : Path) (fs : FS) :
    Except String (Bool × FS) := do
  let fs' ← mkTopDirs m self.directories fs
  .ok (true, fs')

/-- The loop of Module.create_files: write each file of the template, the
one equal to the first template entry with the generated content and every
other one empty. -/
def writeAll (m : Path) (first now : String) : List String → FS → Except String FS
  | [], fs => .ok fs
  | f :: rest, fs => do
    let fs1 ← writeFile fs (m ++ [f]) (if f = first then readmeContent m now else "")
    writeAll m first now rest fs1

/-- Module.create_files: return false at once when the file template is
empty, otherwise write every template file and return true. -/
def Module.create_files (self : Module) (m : Path) (now : String) (fs : FS) :
    Except String (Bool × FS) :=
  match self.files with
  | [] => .ok (false, fs)
  | f0 :: _ => do
    let fs' ← writeAll m f0 now self.files fs
    .ok (true, fs')

/-- Render a step outcome the way create_modules does. -/
def outcome (b : Bool) : String :=
  if b then "succeeded" else "failed"

/-- The log line reporting create_module. -/
def msgModule (m : Path) (b : Bool) : String :=
  "Creating module " ++ renderPath m ++ " has " ++ outcome b

/-- The log line reporting create_subdirectories. -/
def msgSubdirs (m : Path) (b : Bool) : String :=
  "Creating subdirectories for " ++ renderPath m ++ " has " ++ outcome b

/-- The log line reporting create_files. -/
def msgFiles (m : Path) (b : Bool) : String :=
  "Creating files for " ++ renderPath m ++ " has " ++ outcome b

/-- The loop of Module.create_modules: process the names in order; for
each, run create_module, create_subdirectories and create_files and log one
outcome line per step.  The clock assigns the datetime.now() sample of the
i-th module's create_files call. -/
def runList (self : Module) (clock : Nat → String) :
    Nat → List Path → FS → Except String (FS × List String)
  | _, [], fs => .ok (fs, [])
  | i, m :: rest, fs => do
    let (b1, fs1) ← self.create_module m fs
    let (b2, fs2) ← self.create_subdirectories m fs1
    let (b3, fs3) ← self.create_files m (clock i) fs2
    let (fsEnd, tr) ← runList self clock (i + 1) rest fs3
    .ok (fsEnd, msgModule m b1 :: msgSubdirs m b2 :: msgFiles m b3 :: tr)

/-- Module.create_modules: run the per-module sequence over the stored
module names, returning the final filesystem and the log lines. -/
def Module.create_modules (self : Module) (clock : Nat → String) (fs : FS) :
    Except String (FS × List String) :=
  runList self clock 0 self.module_names fs

/-- Observable result of main: exit status, final filesystem, stdout lines
and the log lines create_modules appended. -/
structure MainOut where
  exitCode : Nat
  fs : FS
  stdout : List String
  logLines : List String
deriving DecidableEq

/-- main of src/main.py: with fewer than two argv entries print the usage
line and exit 1; otherwise scaffold every argument after the program name
and exit 0. -/
def mainRun (argv : List String) (clock : Nat → String) (fs : FS) :
    Except String MainOut :=
  if argv.length < 2 then
    .ok { exitCode := 1, fs := fs,
          stdout := ["Start",
            "Usage: " ++ argv.headD "" ++ " <module_names>\nExiting..."],
          logLines := [] }
  else do
    let (fs', tr) ← Module.create_modules
        (Module.init ((argv.drop 1).map toPath)) clock fs
    .ok { exitCode := 0, fs := fs',
          stdout := ["Start", "Creating module(s)...", "Finished"],
          logLines := tr }

/-- The relative paths of all template directories under a module root. -/
def shapeRel : List Path :=
  directoriesTemplate.flatMap (fun ds => [ds.1] :: ds.2.map (fun s => [ds.1, s]))

/-- Every template directory exists as a directory under the module root. -/
def shapeDirsOk (fs : FS) (m : Path) : Bool :=
  shapeRel.all (fun r => isDirAt fs (m ++ r))

/-- Every template file exists as a file under the module root. -/
def templateFilesOk (fs : FS) (m : Path) : Bool :=
  filesTemplate.all (fun f => isFileAt fs (m ++ [f]))

/-- The whole template tree is present under the module root: the root and
every template directory exist as directories, every template file as a
file. -/
def moduleTreeOk (fs : FS) (m : Path) : Bool :=
  isDirAt fs m && shapeDirsOk fs m && templateFilesOk fs m

/-- A module name that renders to a nonempty Python path with no empty
segment (the spec constrains names to nonempty strings and leaves
path-invalid names to the filesystem). -/
def validName (p : Path) : Bool :=
  !p.isEmpty && p.all (fun s => !s.isEmpty)

/-- No ancestor of any template directory of the module is a file: the
precondition under which directory creation cannot raise. -/
def noFileConflict (fs : FS) (m : Path) : Bool :=
  shapeRel.all (fun r => (ancestors (m ++ r)).all (fun a => !isFileAt fs a))

/-- The run returned normally. -/
def isOkRun (r : Except String (FS × List String)) : Bool :=
  match r with
  | .ok _ => true
  | .error _ => false

/-- The final filesystem of a normal run, or the default when it failed. -/
def okFS (r : Except String (FS × List String)) (dflt : FS) : FS :=
  match r with
  | .ok (f, _) => f
  | .error _ => dflt

/-- A fallible step returned normally. -/
def isOkE {α : Type} (r : Except String α) : Bool :=
  match r with
  | .ok _ => true
  | .error _ => false

/-- The filesystem of a normal (flag, filesystem) step result, or the
default when it failed. -/
def okBFS (r : Except String (Bool × FS)) (dflt : FS) : FS :=
  match r with
  | .ok (_, f) => f
  | .error _ => dflt

/-- Pure mirror of writeAll, naming its result when every write goes
through. -/
def writeAllPure (m : Path) (first now : String) : List String → FS → FS
  | [], fs => fs
  | f :: rest, fs =>
    writeAllPure m first now rest
      (setFS fs (m ++ [f]) (.file (if f = first then readmeContent m now else "")))

/-- The content of the file at a path, or the empty string when there is
no file there. -/
def contentAt (fs : FS) (p : Path) : String :=
  match lookupFS fs p with
  | some (.file c) => c
  | _ => ""

/-- The first line of a string: its characters up to the first newline. -/
def firstLine (s : String) : String :=
  String.mk (s.data.takeWhile (fun c => c ≠ '\n'))

/-! ## Concrete runs used to exercise the model -/

/-- A fixed sample timestamp source for concrete runs. -/
def sampleClock : Nat → String := fun _ => "2024-01-01 00:00:00"

/-- A later sample timestamp source, for second runs. -/
def sampleClock2 : Nat → String := fun _ => "2024-01-02 00:00:00"

/-- Scaffold the module blog on an empty filesystem. -/
def blogRun : Except String (FS × List String) :=
  (Module.init [["blog"]]).create_modules sampleClock []

/-- The filesystem after the blog run. -/
def blogFS : FS := okFS blogRun []

/-- The log lines of the blog run. -/
def blogTrace : List String :=
  match blogRun with
  | .ok (_, t) => t
  | .error _ => []

/-- A filesystem on which the blog root already exists. -/
def preFS : FS := [(["blog"], Entry.dir)]

/-- create_subdirectories for blog on the pre-existing root. -/
def preSub : Except String (Bool × FS) :=
  (Module.init [["blog"]]).create_subdirectories ["blog"] preFS

/-- Its resulting filesystem. -/
def preSubFS : FS := okBFS preSub []

/-- create_files for blog after the subdirectory step. -/
def preFilesRun : Except String (Bool × FS) :=
  (Module.init [["blog"]]).create_files ["blog"] (sampleClock 0) preSubFS

/-- Its resulting filesystem. -/
def preFilesFS : FS := okBFS preFilesRun []

/-- create the template directories for module a on an empty filesystem. -/
def subRunA : Except String (Bool × FS) :=
  (Module.init []).create_subdirectories ["a"] []

/-- create_files for blog when only the blog root exists. -/
def filesRunBlog : Except String (Bool × FS) :=
  (Module.init []).create_files ["blog"] "TS" [(["blog"], Entry.dir)]

/-- A module value whose file template is empty. -/
def emptyModule : Module := ⟨[], [], []⟩

/-- Scaffold the modules a and b in one invocation on an empty
filesystem. -/
def abRun : Except String (FS × List String) :=
  (Module.init [["a"], ["b"]]).create_modules sampleClock []

/-- The filesystem after the a-and-b run. -/
def abFS : FS := okFS abRun []

/-- The log lines of the a-and-b run. -/
def abTrace : List String :=
  match abRun with
  | .ok (_, t) => t
  | .error _ => []

/-- Scaffold the module myBlog on an empty filesystem. -/
def myBlogRun : Except String (FS × List String) :=
  (Module.init [["myBlog"]]).create_modules sampleClock []

/-- The filesystem after the myBlog run. -/
def myBlogFS : FS := okFS myBlogRun []

/-- create_files for myBlog (spelled as its character list) when only its
root exists. -/
def myFilesRun : Except String (Bool × FS) :=
  (Module.init []).create_files [String.mk ['m', 'y', 'B', 'l', 'o', 'g']] "TS"
    [([String.mk ['m', 'y', 'B', 'l', 'o', 'g']], Entry.dir)]

/-- The main run on the program name alone and on blog with a pre-existing
root, observed as a MainOut value. -/
def mainPreOut : MainOut :=
  match mainRun ["make_mod.py", "blog"] sampleClock preFS with
  | .ok o => o
  | .error _ => ⟨1, [], [], []⟩

/-! ## Association-list lemmas -/

theorem lookupFS_setFS_self (fs : FS) (p : Path) (e : Entry) :
    lookupFS (setFS fs p e) p = some e := by
  induction fs with
  | nil => simp [setFS, lookupFS]
  | cons hd tl ih =>
    obtain ⟨q, d⟩ := hd
    by_cases hq : q = p
    · subst hq; simp [setFS, lookupFS]
    · simp [setFS, lookupFS, hq, ih]

theorem lookupFS_setFS_ne (fs : FS) {p q : Path} (e : Entry) (h : q ≠ p) :
    lookupFS (setFS fs p e) q = lookupFS fs q := by
  induction fs with
  | nil => simp [setFS, lookupFS, Ne.symm h]
  | cons hd tl ih =>
    obtain ⟨r, d⟩ := hd
    by_cases hr : r = p
    · subst hr
      simp [setFS, lookupFS, Ne.symm h]
    · simp [setFS, lookupFS, hr, ih]

theorem isDirAt_iff {fs : FS} {p : Path} :
    isDirAt fs p = true ↔ lookupFS fs p = some .dir := by
  unfold isDirAt
  split <;> simp_all

theorem isFileAt_iff {fs : FS} {p : Path} :
    isFileAt fs p = true ↔ ∃ c, lookupFS fs p = some (.file c) := by
  unfold isFileAt
  split <;> simp_all

/-! ## Lemmas about the os.makedirs model -/

theorem mkdirsAux_preserves {fs fs' : FS} {l : List Path}
    (h : mkdirsAux fs l = .ok fs') {q : Path} {e : Entry}
    (hq : lookupFS fs q = some e) : lookupFS fs' q = some e := by
  induction l generalizing fs with
  | nil =>
    simp [mkdirsAux] at h
    subst h; exact hq
  | cons a rest ih =>
    cases ha : lookupFS fs a with
    | none =>
      simp only [mkdirsAux, ha] at h
      refine ih h ?_
      by_cases hqa : q = a
      · subst hqa; rw [hq] at ha; cases ha
      · rw [lookupFS_setFS_ne _ _ hqa]; exact hq
    | some ent =>
      cases ent with
      | dir => simp only [mkdirsAux, ha] at h; exact ih h hq
      | file c => simp only [mkdirsAux, ha] at h; cases h

theorem mkdirsAux_dirs {fs fs' : FS} {l : List Path}
    (h : mkdirsAux fs l = .ok fs') {a : Path} (ha : a ∈ l) :
    isDirAt fs' a = true := by
  induction l generalizing fs with
  | nil => cases ha
  | cons b rest ih =>
    cases hb : lookupFS fs b with
    | none =>
      simp only [mkdirsAux, hb] at h
      rcases List.mem_cons.mp ha with rfl | hmem
      · exact isDirAt_iff.mpr (mkdirsAux_preserves h (lookupFS_setFS_self fs a .dir))
      · exact ih h hmem
    | some ent =>
      cases ent with
      | dir =>
        simp only [mkdirsAux, hb] at h
        rcases List.mem_cons.mp ha with rfl | hmem
        · exact isDirAt_iff.mpr (mkdirsAux_preserves h hb)
        · exact ih h hmem
      | file c => simp only [mkdirsAux, hb] at h; cases h

theorem mkdirsAux_file_eq {fs fs' : FS} {l : List Path}
    (h : mkdirsAux fs l = .ok fs') (q : Path) :
    isFileAt fs' q = isFileAt fs q := by
  induction l generalizing fs with
  | nil => simp [mkdirsAux] at h; subst h; rfl
  | cons a rest ih =>
    cases ha : lookupFS fs a with
    | none =>
      simp only [mkdirsAux, ha] at h
      rw [ih h]
      by_cases hqa : q = a
      · subst hqa
        simp [isFileAt, lookupFS_setFS_self, ha]
      · simp [isFileAt, lookupFS_setFS_ne _ _ hqa]
    | some ent =>
      cases ent with
      | dir => simp only [mkdirsAux, ha] at h; exact ih h
      | file c => simp only [mkdirsAux, ha] at h; cases h

theorem mkdirsAux_eq_pure {fs : FS} {l : List Path}
    (h : ∀ a ∈ l, isFileAt fs a = false) :
    mkdirsAux fs l = .ok (mkdirsPure fs l) := by
  induction l generalizing fs with
  | nil => simp [mkdirsAux, mkdirsPure]
  | cons a rest ih =>
    cases ha : lookupFS fs a with
    | none =>
      simp only [mkdirsAux, mkdirsPure, ha]
      refine ih ?_
      intro b hb
      by_cases hba : b = a
      · subst hba; simp [isFileAt, lookupFS_setFS_self]
      · rw [isFileAt, lookupFS_setFS_ne _ _ hba, ← isFileAt]
        exact h b (List.mem_cons_of_mem _ hb)
    | some ent =>
      cases ent with
      | dir =>
        simp only [mkdirsAux, mkdirsPure, ha]
        exact ih fun b hb => h b (List.mem_cons_of_mem _ hb)
      | file c =>
        have := h a (List.mem_cons_self _ _)
        simp [isFileAt, ha] at this

theorem mkdirsAux_id {fs : FS} {l : List Path}
    (h : ∀ a ∈ l, lookupFS fs a = some .dir) :
    mkdirsAux fs l = .ok fs := by
  induction l with
  | nil => simp [mkdirsAux]
  | cons a rest ih =>
    have ha := h a (List.mem_cons_self _ _)
    simp only [mkdirsAux, ha]
    exact ih fun b hb => h b (List.mem_cons_of_mem _ hb)

theorem mkdirsPure_lookup_other {fs : FS} {l : List Path} {q : Path}
    (h : ∀ a ∈ l, q ≠ a) :
    lookupFS (mkdirsPure fs l) q = lookupFS fs q := by
  induction l generalizing fs with
  | nil => simp [mkdirsPure]
  | cons a rest ih =>
    cases ha : lookupFS fs a with
    | none =>
      simp only [mkdirsPure, ha]
      rw [ih fun b hb => h b (List.mem_cons_of_mem _ hb)]
      exact lookupFS_setFS_ne _ _ (h a (List.mem_cons_self _ _))
    | some ent =>
      simp only [mkdirsPure, ha]
      exact ih fun b hb => h b (List.mem_cons_of_mem _ hb)

/-! ## Lemmas about the file-writing model -/

theorem bind_ok {α β : Type} {x : Except String α} {f : α → Except String β}
    {b : β} (h : (x >>= f) = .ok b) : ∃ a, x = .ok a ∧ f a = .ok b := by
  cases x with
  | ok a => exact ⟨a, rfl, h⟩
  | error e => simp [Bind.bind, Except.bind] at h

theorem append_singleton_inj {m : Path} {f g : String}
    (h : m ++ [f] = m ++ [g]) : f = g := by
  simpa using List.append_cancel_left h

theorem isDirAt_false_of_isFileAt {fs : FS} {p : Path}
    (h : isFileAt fs p = true) : isDirAt fs p = false := by
  obtain ⟨c, hc⟩ := isFileAt_iff.mp h
  simp [isDirAt, hc]

theorem writeFile_ok_self {fs fs' : FS} {p : Path} {c : String}
    (h : writeFile fs p c = .ok fs') : lookupFS fs' p = some (.file c) := by
  unfold writeFile at h
  split at h
  · cases h
  · injection h with h; subst h; exact lookupFS_setFS_self ..
  · split at h
    · injection h with h; subst h; exact lookupFS_setFS_self ..
    · split at h
      · injection h with h; subst h; exact lookupFS_setFS_self ..
      · cases h

theorem writeFile_ok_other {fs fs' : FS} {p q : Path} {c : String}
    (h : writeFile fs p c = .ok fs') (hq : q ≠ p) :
    lookupFS fs' q = lookupFS fs q := by
  unfold writeFile at h
  split at h
  · cases h
  · injection h with h; subst h; exact lookupFS_setFS_ne _ _ hq
  · split at h
    · injection h with h; subst h; exact lookupFS_setFS_ne _ _ hq
    · split at h
      · injection h with h; subst h; exact lookupFS_setFS_ne _ _ hq
      · cases h

theorem writeFile_ok_notDir {fs fs' : FS} {p : Path} {c : String}
    (h : writeFile fs p c = .ok fs') : isDirAt fs p = false := by
  unfold writeFile at h
  split at h
  · cases h
  · rename_i heq; simp [isDirAt, heq]
  · rename_i heq; simp [isDirAt, heq]

theorem writeFile_of_file {fs : FS} {p : Path} (c : String)
    (hf : isFileAt fs p = true) :
    writeFile fs p c = .ok (setFS fs p (.file c)) := by
  obtain ⟨d, hd⟩ := isFileAt_iff.mp hf
  simp [writeFile, hd]

theorem writeFile_isDirAt {fs fs' : FS} {p : Path} {c : String}
    (h : writeFile fs p c = .ok fs') (q : Path) :
    isDirAt fs' q = isDirAt fs q := by
  by_cases hq : q = p
  · subst hq
    rw [writeFile_ok_notDir h]
    simp [isDirAt, writeFile_ok_self h]
  · unfold isDirAt
    rw [writeFile_ok_other h hq]

theorem writeFile_isFileAt_mono {fs fs' : FS} {p : Path} {c : String}
    (h : writeFile fs p c = .ok fs') {q : Path}
    (hq : isFileAt fs q = true) : isFileAt fs' q = true := by
  by_cases hqp : q = p
  · subst hqp
    simp [isFileAt, writeFile_ok_self h]
  · unfold isFileAt
    rw [writeFile_ok_other h hqp]
    exact hq

theorem writeAll_ok_other {m : Path} {first now : String} {l : List String}
    {fs fs' : FS} {q : Path} (h : writeAll m first now l fs = .ok fs')
    (hq : ∀ f ∈ l, q ≠ m ++ [f]) :
    lookupFS fs' q = lookupFS fs q := by
  induction l generalizing fs with
  | nil => simp [writeAll] at h; subst h; rfl
  | cons f rest ih =>
    simp only [writeAll] at h
    obtain ⟨fs1, hw, h⟩ := bind_ok h
    rw [ih h fun g hg => hq g (List.mem_cons_of_mem _ hg)]
    exact writeFile_ok_other hw (hq f (List.mem_cons_self _ _))

theorem writeAll_isDirAt {m : Path} {first now : String} {l : List String}
    {fs fs' : FS} (h : writeAll m first now l fs = .ok fs') (q : Path) :
    isDirAt fs' q = isDirAt fs q := by
  induction l generalizing fs with
  | nil => simp [writeAll] at h; subst h; rfl
  | cons f rest ih =>
    simp only [writeAll] at h
    obtain ⟨fs1, hw, h⟩ := bind_ok h
    rw [ih h, writeFile_isDirAt hw]

theorem writeAll_isFileAt_mono {m : Path} {first now : String}
    {l : List String} {fs fs' : FS} (h : writeAll m first now l fs = .ok fs')
    {q : Path} (hq : isFileAt fs q = true) : isFileAt fs' q = true := by
  induction l generalizing fs with
  | nil => simp [writeAll] at h; subst h; exact hq
  | cons f rest ih =>
    simp only [writeAll] at h
    obtain ⟨fs1, hw, h⟩ := bind_ok h
    exact ih h (writeFile_isFileAt_mono hw hq)

theorem writeAll_content {m : Path} {first now : String} {l : List String}
    {fs fs' : FS} {f : String} (hnd : l.Nodup)
    (h : writeAll m first now l fs = .ok fs') (hf : f ∈ l) :
    lookupFS fs' (m ++ [f])
      = some (.file (if f = first then readmeContent m now else "")) := by
  induction l generalizing fs with
  | nil => cases hf
  | cons g rest ih =>
    simp only [writeAll] at h
    obtain ⟨fs1, hw, h2⟩ := bind_ok h
    rcases List.mem_cons.mp hf with rfl | hmem
    · rw [writeAll_ok_other h2 ?_]
      · exact writeFile_ok_self hw
      · intro g hg hcontra
        exact (List.nodup_cons.mp hnd).1 (append_singleton_inj hcontra ▸ hg)
    · exact ih (List.nodup_cons.mp hnd).2 h2 hmem

theorem writeAll_of_files {m : Path} {first now : String} {l : List String}
    {fs : FS} (hl : ∀ f ∈ l, isFileAt fs (m ++ [f]) = true) :
    writeAll m first now l fs = .ok (writeAllPure m first now l fs) := by
  induction l generalizing fs with
  | nil => simp [writeAll, writeAllPure]
  | cons f rest ih =>
    simp only [writeAll, writeAllPure]
    rw [writeFile_of_file _ (hl f (List.mem_cons_self _ _))]
    show writeAll m first now rest _ = _
    refine ih ?_
    intro g hg
    by_cases hgf : m ++ [g] = m ++ [f]
    · rw [hgf]
      simp [isFileAt, lookupFS_setFS_self]
    · unfold isFileAt
      rw [lookupFS_setFS_ne _ _ hgf]
      exact hl g (List.mem_cons_of_mem _ hg)

theorem writeAllPure_lookup_other {m : Path} {first now : String}
    {l : List String} {fs : FS} {q : Path} (hq : ∀ f ∈ l, q ≠ m ++ [f]) :
    lookupFS (writeAllPure m first now l fs) q = lookupFS fs q := by
  induction l generalizing fs with
  | nil => rfl
  | cons f rest ih =>
    simp only [writeAllPure]
    rw [ih fun g hg => hq g (List.mem_cons_of_mem _ hg)]
    exact lookupFS_setFS_ne _ _ (hq f (List.mem_cons_self _ _))

theorem writeAllPure_content {m : Path} {first now : String}
    {l : List String} {fs : FS} {f : String} (hnd : l.Nodup) (hf : f ∈ l) :
    lookupFS (writeAllPure m first now l fs) (m ++ [f])
      = some (.file (if f = first then readmeContent m now else "")) := by
  induction l generalizing fs with
  | nil => cases hf
  | cons g rest ih =>
    simp only [writeAllPure]
    rcases List.mem_cons.mp hf with rfl | hmem
    · rw [writeAllPure_lookup_other ?_]
      · exact lookupFS_setFS_self ..
      · intro g hg hcontra
        exact (List.nodup_cons.mp hnd).1 (append_singleton_inj hcontra ▸ hg)
    · exact ih (List.nodup_cons.mp hnd).2 hmem

theorem writeAllPure_isDirAt {m : Path} {first now : String}
    {l : List String} {fs : FS} {q : Path}
    (hl : ∀ f ∈ l, isFileAt fs (m ++ [f]) = true) :
    isDirAt (writeAllPure m first now l fs) q = isDirAt fs q := by
  induction l generalizing fs with
  | nil => rfl
  | cons f rest ih =>
    simp only [writeAllPure]
    rw [ih ?_]
    · by_cases hq : q = m ++ [f]
      · subst hq
        rw [isDirAt_false_of_isFileAt (hl f (List.mem_cons_self _ _))]
        simp [isDirAt, lookupFS_setFS_self]
      · unfold isDirAt
        rw [lookupFS_setFS_ne _ _ hq]
    · intro g hg
      by_cases hgf : m ++ [g] = m ++ [f]
      · rw [hgf]
        simp [isFileAt, lookupFS_setFS_self]
      · unfold isFileAt
        rw [lookupFS_setFS_ne _ _ hgf]
        exact hl g (List.mem_cons_of_mem _ hg)

/-! ## Lemmas about ancestors -/

theorem ancestors_last {p : Path} (hp : p ≠ []) : p ∈ ancestors p := by
  unfold ancestors
  have h1 : 0 < p.length := List.length_pos.mpr hp
  refine List.mem_map.mpr ⟨p.length - 1, List.mem_range.mpr (Nat.sub_lt h1 one_pos), ?_⟩
  have h2 : p.length - 1 + 1 = p.length := by omega
  rw [h2]
  exact List.take_length p

theorem ancestors_self_append {p : Path} (hp : p ≠ []) (l : Path) :
    p ∈ ancestors (p ++ l) := by
  unfold ancestors
  have h1 : 0 < p.length := List.length_pos.mpr hp
  refine List.mem_map.mpr ⟨p.length - 1, ?_, ?_⟩
  · refine List.mem_range.mpr ?_
    rw [List.length_append]
    omega
  · have h2 : p.length - 1 + 1 = p.length := by omega
    rw [h2]
    exact List.take_left _ _

/-! ## Lemmas about the create_subdirectories loops -/

theorem mkSubDirs_preserves {m : Path} {d : String} {subs : List String}
    {fs fs' : FS} (h : mkSubDirs m d subs fs = .ok fs') {q : Path} {e : Entry}
    (hq : lookupFS fs q = some e) : lookupFS fs' q = some e := by
  induction subs generalizing fs with
  | nil => simp [mkSubDirs] at h; subst h; exact hq
  | cons s rest ih =>
    simp only [mkSubDirs] at h
    obtain ⟨fs1, h1, h2⟩ := bind_ok h
    unfold mkdirs at h1
    exact ih h2 (mkdirsAux_preserves h1 hq)

theorem mkSubDirs_file_eq {m : Path} {d : String} {subs : List String}
    {fs fs' : FS} (h : mkSubDirs m d subs fs = .ok fs') (q : Path) :
    isFileAt fs' q = isFileAt fs q := by
  induction subs generalizing fs with
  | nil => simp [mkSubDirs] at h; subst h; rfl
  | cons s rest ih =>
    simp only [mkSubDirs] at h
    obtain ⟨fs1, h1, h2⟩ := bind_ok h
    unfold mkdirs at h1
    rw [ih h2, mkdirsAux_file_eq h1]

theorem mkSubDirs_dirs {m : Path} {d : String} {subs : List String}
    {fs fs' : FS} (h : mkSubDirs m d subs fs = .ok fs') {s : String}
    (hs : s ∈ subs) {a : Path} (ha : a ∈ ancestors (m ++ [d, s])) :
    isDirAt fs' a = true := by
  induction subs generalizing fs with
  | nil => cases hs
  | cons s0 rest ih =>
    simp only [mkSubDirs] at h
    obtain ⟨fs1, h1, h2⟩ := bind_ok h
    unfold mkdirs at h1
    rcases List.mem_cons.mp hs with rfl | hmem
    · have hd1 := mkdirsAux_dirs h1 ha
      exact isDirAt_iff.mpr (mkSubDirs_preserves h2 (isDirAt_iff.mp hd1))
    · exact ih h2 hmem

theorem mkSubDirs_id {m : Path} {d : String} {subs : List String} {fs : FS}
    (hd : ∀ s ∈ subs, ∀ a ∈ ancestors (m ++ [d, s]), lookupFS fs a = some .dir) :
    mkSubDirs m d subs fs = .ok fs := by
  induction subs with
  | nil => simp [mkSubDirs]
  | cons s0 rest ih =>
    have h1 : mkdirs fs (m ++ [d, s0]) = .ok fs := by
      unfold mkdirs
      exact mkdirsAux_id (hd s0 (List.mem_cons_self _ _))
    simp only [mkSubDirs]
    rw [h1]
    show mkSubDirs m d rest fs = .ok fs
    exact ih fun s hs => hd s (List.mem_cons_of_mem _ hs)

theorem mkSubDirs_ok_of_noFile {m : Path} {d : String} {subs : List String}
    {fs : FS}
    (hnf : ∀ s ∈ subs, ∀ a ∈ ancestors (m ++ [d, s]), isFileAt fs a = false) :
    ∃ fs', mkSubDirs m d subs fs = .ok fs'
      ∧ ∀ q, isFileAt fs' q = isFileAt fs q := by
  induction subs generalizing fs with
  | nil => exact ⟨fs, by simp [mkSubDirs], fun q => rfl⟩
  | cons s0 rest ih =>
    have h1 : mkdirs fs (m ++ [d, s0])
        = .ok (mkdirsPure fs (ancestors (m ++ [d, s0]))) := by
      unfold mkdirs
      exact mkdirsAux_eq_pure (hnf s0 (List.mem_cons_self _ _))
    have hfe : ∀ q, isFileAt (mkdirsPure fs (ancestors (m ++ [d, s0]))) q
        = isFileAt fs q := by
      intro q
      have h1' : mkdirsAux fs (ancestors (m ++ [d, s0]))
          = .ok (mkdirsPure fs (ancestors (m ++ [d, s0]))) := h1
      exact mkdirsAux_file_eq h1' q
    obtain ⟨fs2, h2, hfe2⟩ := ih
      (fun s hs a ha => (hfe a).trans (hnf s (List.mem_cons_of_mem _ hs) a ha))
    refine ⟨fs2, ?_, fun q => (hfe2 q).trans (hfe q)⟩
    simp only [mkSubDirs]
    rw [h1]
    exact h2

theorem mkTopDirs_preserves {m : Path} {tl : List (String × List String)}
    {fs fs' : FS} (h : mkTopDirs m tl fs = .ok fs') {q : Path} {e : Entry}
    (hq : lookupFS fs q = some e) : lookupFS fs' q = some e := by
  induction tl generalizing fs with
  | nil => simp [mkTopDirs] at h; subst h; exact hq
  | cons hd0 rest ih =>
    obtain ⟨d, subs⟩ := hd0
    simp only [mkTopDirs] at h
    obtain ⟨fs1, h1, h⟩ := bind_ok h
    obtain ⟨fs2, h2, h3⟩ := bind_ok h
    unfold mkdirs at h1
    exact ih h3 (mkSubDirs_preserves h2 (mkdirsAux_preserves h1 hq))

theorem mkTopDirs_file_eq {m : Path} {tl : List (String × List String)}
    {fs fs' : FS} (h : mkTopDirs m tl fs = .ok fs') (q : Path) :
    isFileAt fs' q = isFileAt fs q := by
  induction tl generalizing fs with
  | nil => simp [mkTopDirs] at h; subst h; rfl
  | cons hd0 rest ih =>
    obtain ⟨d, subs⟩ := hd0
    simp only [mkTopDirs] at h
    obtain ⟨fs1, h1, h⟩ := bind_ok h
    obtain ⟨fs2, h2, h3⟩ := bind_ok h
    unfold mkdirs at h1
    rw [ih h3, mkSubDirs_file_eq h2, mkdirsAux_file_eq h1]

theorem mkTopDirs_dirs {m : Path} {tl : List (String × List String)}
    {fs fs' : FS} (h : mkTopDirs m tl fs = .ok fs') {d : String}
    {subs : List String} (hmem : (d, subs) ∈ tl) :
    (∀ a ∈ ancestors (m ++ [d]), isDirAt fs' a = true)
      ∧ ∀ s ∈ subs, ∀ a ∈ ancestors (m ++ [d, s]), isDirAt fs' a = true := by
  induction tl generalizing fs with
  | nil => cases hmem
  | cons hd0 rest ih =>
    obtain ⟨d0, subs0⟩ := hd0
    simp only [mkTopDirs] at h
    obtain ⟨fs1, h1, h⟩ := bind_ok h
    obtain ⟨fs2, h2, h3⟩ := bind_ok h
    unfold mkdirs at h1
    rcases List.mem_cons.mp hmem with heq | hmem2
    · obtain ⟨rfl, rfl⟩ := Prod.mk.injEq .. ▸ heq
      constructor
      · intro a ha
        have hd1 := mkdirsAux_dirs h1 ha
        exact isDirAt_iff.mpr (mkTopDirs_preserves h3
          (mkSubDirs_preserves h2 (isDirAt_iff.mp hd1)))
      · intro s hs a ha
        have hd2 := mkSubDirs_dirs h2 hs ha
        exact isDirAt_iff.mpr (mkTopDirs_preserves h3 (isDirAt_iff.mp hd2))
    · exact ih h3 hmem2

theorem mkTopDirs_id {m : Path} {tl : List (String × List String)} {fs : FS}
    (hd : ∀ p ∈ tl, (∀ a ∈ ancestors (m ++ [p.1]), lookupFS fs a = some .dir)
      ∧ ∀ s ∈ p.2, ∀ a ∈ ancestors (m ++ [p.1, s]), lookupFS fs a = some .dir) :
    mkTopDirs m tl fs = .ok fs := by
  induction tl with
  | nil => simp [mkTopDirs]
  | cons hd0 rest ih =>
    obtain ⟨d0, subs0⟩ := hd0
    have h1 : mkdirs fs (m ++ [d0]) = .ok fs := by
      unfold mkdirs
      exact mkdirsAux_id (hd (d0, subs0) (List.mem_cons_self _ _)).1
    have h2 : mkSubDirs m d0 subs0 fs = .ok fs :=
      mkSubDirs_id (hd (d0, subs0) (List.mem_cons_self _ _)).2
    simp only [mkTopDirs]
    rw [h1]
    show (mkSubDirs m d0 subs0 fs >>= fun fs2 => mkTopDirs m rest fs2) = .ok fs
    rw [h2]
    show mkTopDirs m rest fs = .ok fs
    exact ih fun p hp => hd p (List.mem_cons_of_mem _ hp)

theorem mkTopDirs_ok_of_noFile {m : Path} {tl : List (String × List String)}
    {fs : FS}
    (hnf : ∀ p ∈ tl, (∀ a ∈ ancestors (m ++ [p.1]), isFileAt fs a = false)
      ∧ ∀ s ∈ p.2, ∀ a ∈ ancestors (m ++ [p.1, s]), isFileAt fs a = false) :
    ∃ fs', mkTopDirs m tl fs = .ok fs'
      ∧ ∀ q, isFileAt fs' q = isFileAt fs q := by
  induction tl generalizing fs with
  | nil => exact ⟨fs, by simp [mkTopDirs], fun q => rfl⟩
  | cons hd0 rest ih =>
    obtain ⟨d0, subs0⟩ := hd0
    have h1 : mkdirs fs (m ++ [d0])
        = .ok (mkdirsPure fs (ancestors (m ++ [d0]))) := by
      unfold mkdirs
      exact mkdirsAux_eq_pure (hnf (d0, subs0) (List.mem_cons_self _ _)).1
    have hfe1 : ∀ q, isFileAt (mkdirsPure fs (ancestors (m ++ [d0]))) q
        = isFileAt fs q := by
      intro q
      have h1' : mkdirsAux fs (ancestors (m ++ [d0]))
          = .ok (mkdirsPure fs (ancestors (m ++ [d0]))) := h1
      exact mkdirsAux_file_eq h1' q
    obtain ⟨fsB, h2, hfe2⟩ := mkSubDirs_ok_of_noFile
      (fun s hs a ha => (hfe1 a).trans
        ((hnf (d0, subs0) (List.mem_cons_self _ _)).2 s hs a ha))
    obtain ⟨fs', h3, hfe3⟩ := ih
      (fun p hp => ⟨fun a ha => ((hfe2 a).trans (hfe1 a)).trans
          ((hnf p (List.mem_cons_of_mem _ hp)).1 a ha),
        fun s hs a ha => ((hfe2 a).trans (hfe1 a)).trans
          ((hnf p (List.mem_cons_of_mem _ hp)).2 s hs a ha)⟩)
    refine ⟨fs', ?_, fun q => (hfe3 q).trans ((hfe2 q).trans (hfe1 q))⟩
    simp only [mkTopDirs]
    rw [h1]
    show (mkSubDirs m d0 subs0 _ >>= fun fs2 => mkTopDirs m rest fs2) = .ok fs'
    rw [h2]
    exact h3

/-! ## Lemmas about the Module operations -/

theorem create_module_preserves {self : Module} {m : Path} {fs : FS} {b : Bool}
    {fs1 : FS} (h : self.create_module m fs = .ok (b, fs1)) {q : Path}
    {e : Entry} (hq : lookupFS fs q = some e) : lookupFS fs1 q = some e := by
  unfold Module.create_module at h
  split at h
  · simp only [Except.ok.injEq, Prod.mk.injEq] at h
    obtain ⟨hb, rfl⟩ := h
    exact hq
  · obtain ⟨a, h1, h2⟩ := bind_ok h
    simp only [Except.ok.injEq, Prod.mk.injEq] at h2
    obtain ⟨hb, rfl⟩ := h2
    unfold mkdirs at h1
    exact mkdirsAux_preserves h1 hq

theorem create_module_file_eq {self : Module} {m : Path} {fs : FS} {b : Bool}
    {fs1 : FS} (h : self.create_module m fs = .ok (b, fs1)) (q : Path) :
    isFileAt fs1 q = isFileAt fs q := by
  unfold Module.create_module at h
  split at h
  · simp only [Except.ok.injEq, Prod.mk.injEq] at h
    obtain ⟨hb, rfl⟩ := h
    rfl
  · obtain ⟨a, h1, h2⟩ := bind_ok h
    simp only [Except.ok.injEq, Prod.mk.injEq] at h2
    obtain ⟨hb, rfl⟩ := h2
    unfold mkdirs at h1
    exact mkdirsAux_file_eq h1 q

theorem create_subdirectories_ok {self : Module} {m : Path} {fs : FS}
    {b : Bool} {fs1 : FS} (h : self.create_subdirectories m fs = .ok (b, fs1)) :
    b = true ∧ mkTopDirs m self.directories fs = .ok fs1 := by
  unfold Module.create_subdirectories at h
  obtain ⟨a, h1, h2⟩ := bind_ok h
  simp only [Except.ok.injEq, Prod.mk.injEq] at h2
  obtain ⟨hb, rfl⟩ := h2
  exact ⟨hb.symm, h1⟩

theorem create_files_mono {self : Module} {m : Path} {now : String} {fs : FS}
    {b : Bool} {fs1 : FS} (h : self.create_files m now fs = .ok (b, fs1)) :
    (∀ q, isDirAt fs1 q = isDirAt fs q)
      ∧ ∀ q, isFileAt fs q = true → isFileAt fs1 q = true := by
  rcases hl : self.files with _ | ⟨f0, rest0⟩
  · simp only [Module.create_files, hl] at h
    simp only [Except.ok.injEq, Prod.mk.injEq] at h
    obtain ⟨hb, rfl⟩ := h
    exact ⟨fun q => rfl, fun q hq => hq⟩
  · simp only [Module.create_files, hl] at h
    obtain ⟨a, hwa, h2⟩ := bind_ok h
    simp only [Except.ok.injEq, Prod.mk.injEq] at h2
    obtain ⟨hb, rfl⟩ := h2
    exact ⟨writeAll_isDirAt hwa, fun q hq => writeAll_isFileAt_mono hwa hq⟩

theorem create_files_template {self : Module} {m : Path} {now : String}
    {fs : FS} {b : Bool} {fs1 : FS} (hfiles : self.files = filesTemplate)
    (h : self.create_files m now fs = .ok (b, fs1)) :
    b = true
      ∧ lookupFS fs1 (m ++ ["README.md"]) = some (.file (readmeContent m now))
      ∧ (∀ f ∈ ["CONTRIBUTING.md", "LICENSE", "package.json", ".gitignore"],
          lookupFS fs1 (m ++ [f]) = some (.file ""))
      ∧ (∀ f ∈ filesTemplate, isFileAt fs1 (m ++ [f]) = true)
      ∧ (∀ q, isDirAt fs1 q = isDirAt fs q)
      ∧ ∀ q, (∀ f ∈ filesTemplate, q ≠ m ++ [f]) →
          lookupFS fs1 q = lookupFS fs q := by
  simp only [Module.create_files, hfiles, filesTemplate] at h
  obtain ⟨a, hwa, h2⟩ := bind_ok h
  simp only [Except.ok.injEq, Prod.mk.injEq] at h2
  obtain ⟨hb, rfl⟩ := h2
  have hnd : (["README.md", "CONTRIBUTING.md", "LICENSE", "package.json",
      ".gitignore"] : List String).Nodup := by decide
  refine ⟨hb.symm, ?_, ?_, ?_, writeAll_isDirAt hwa, ?_⟩
  · have := writeAll_content hnd hwa (f := "README.md") (by simp)
    rw [if_pos rfl] at this
    exact this
  · intro f hf
    simp only [List.mem_cons, List.not_mem_nil, or_false] at hf
    rcases hf with rfl | rfl | rfl | rfl
    · have := writeAll_content hnd hwa (f := "CONTRIBUTING.md") (by simp)
      rwa [if_neg (by decide)] at this
    · have := writeAll_content hnd hwa (f := "LICENSE") (by simp)
      rwa [if_neg (by decide)] at this
    · have := writeAll_content hnd hwa (f := "package.json") (by simp)
      rwa [if_neg (by decide)] at this
    · have := writeAll_content hnd hwa (f := ".gitignore") (by simp)
      rwa [if_neg (by decide)] at this
  · intro f hf
    exact isFileAt_iff.mpr ⟨_, writeAll_content hnd hwa hf⟩
  · intro q hq
    exact writeAll_ok_other hwa hq

/-! ## Lemmas about the create_modules loop -/

theorem runList_cons_ok {self : Module} {clock : Nat → String} {i : Nat}
    {m : Path} {rest : List Path} {fs fs' : FS} {tr : List String}
    (h : runList self clock i (m :: rest) fs = .ok (fs', tr)) :
    ∃ b1 fs1 b2 fs2 b3 fs3 trR,
      self.create_module m fs = .ok (b1, fs1)
        ∧ self.create_subdirectories m fs1 = .ok (b2, fs2)
        ∧ self.create_files m (clock i) fs2 = .ok (b3, fs3)
        ∧ runList self clock (i + 1) rest fs3 = .ok (fs', trR)
        ∧ tr = msgModule m b1 :: msgSubdirs m b2 :: msgFiles m b3 :: trR := by
  simp only [runList] at h
  obtain ⟨⟨b1, fs1⟩, h1, h⟩ := bind_ok h
  obtain ⟨⟨b2, fs2⟩, h2, h⟩ := bind_ok h
  obtain ⟨⟨b3, fs3⟩, h3, h⟩ := bind_ok h
  obtain ⟨⟨fsE, trR⟩, h4, h⟩ := bind_ok h
  simp only [Except.ok.injEq, Prod.mk.injEq] at h
  obtain ⟨rfl, rfl⟩ := h
  exact ⟨b1, fs1, b2, fs2, b3, fs3, trR, h1, h2, h3, h4, rfl⟩

theorem runList_mono {self : Module} {clock : Nat → String} {i : Nat}
    {ns : List Path} {fs fs' : FS} {tr : List String}
    (h : runList self clock i ns fs = .ok (fs', tr)) (q : Path) :
    (isDirAt fs q = true → isDirAt fs' q = true)
      ∧ (isFileAt fs q = true → isFileAt fs' q = true) := by
  induction ns generalizing fs i tr with
  | nil =>
    simp only [runList, Except.ok.injEq, Prod.mk.injEq] at h
    obtain ⟨rfl, rfl⟩ := h
    exact ⟨id, id⟩
  | cons m rest ih =>
    obtain ⟨b1, fs1, b2, fs2, b3, fs3, trR, h1, h2, h3, h4, htr⟩ :=
      runList_cons_ok h
    have hsub := (create_subdirectories_ok h2).2
    have hcf := create_files_mono h3
    refine ⟨fun hq => ?_, fun hq => ?_⟩
    · have s1 : isDirAt fs1 q = true :=
        isDirAt_iff.mpr (create_module_preserves h1 (isDirAt_iff.mp hq))
      have s2 : isDirAt fs2 q = true :=
        isDirAt_iff.mpr (mkTopDirs_preserves hsub (isDirAt_iff.mp s1))
      have s3 : isDirAt fs3 q = true := (hcf.1 q).trans s2
      exact (ih h4 (i := i + 1)).1 s3
    · have s1 : isFileAt fs1 q = true := (create_module_file_eq h1 q).trans hq
      have s2 : isFileAt fs2 q = true := (mkTopDirs_file_eq hsub q).trans s1
      have s3 : isFileAt fs3 q = true := hcf.2 q s2
      exact (ih h4 (i := i + 1)).2 s3

theorem shapeRel_cases {r : Path} (hr : r ∈ shapeRel) :
    ∃ d subs, (d, subs) ∈ directoriesTemplate
      ∧ (r = [d] ∨ ∃ s ∈ subs, r = [d, s]) := by
  unfold shapeRel at hr
  rw [List.mem_flatMap] at hr
  obtain ⟨ds, hds, hr⟩ := hr
  rcases List.mem_cons.mp hr with rfl | hr2
  · exact ⟨ds.1, ds.2, hds, Or.inl rfl⟩
  · obtain ⟨s, hs, rfl⟩ := List.mem_map.mp hr2
    exact ⟨ds.1, ds.2, hds, Or.inr ⟨s, hs, rfl⟩⟩

theorem runList_tree {self : Module} {clock : Nat → String} {i : Nat}
    {ns : List Path} {fs fs' : FS} {tr : List String} {m : Path}
    (hdir : self.directories = directoriesTemplate)
    (hfiles : self.files = filesTemplate)
    (h : runList self clock i ns fs = .ok (fs', tr)) (hm : m ∈ ns) :
    (∀ r ∈ shapeRel, isDirAt fs' (m ++ r) = true)
      ∧ (m ≠ [] → isDirAt fs' m = true)
      ∧ ∀ f ∈ filesTemplate, isFileAt fs' (m ++ [f]) = true := by
  induction ns generalizing fs i tr with
  | nil => cases hm
  | cons n rest ih =>
    obtain ⟨b1, fs1, b2, fs2, b3, fs3, trR, h1, h2, h3, h4, htr⟩ :=
      runList_cons_ok h
    rcases List.mem_cons.mp hm with rfl | hmem
    · have hTop : mkTopDirs m directoriesTemplate fs1 = .ok fs2 := by
        rw [← hdir]
        exact (create_subdirectories_ok h2).2
      have hcft := create_files_template hfiles h3
      refine ⟨fun r hr => ?_, fun hne => ?_, fun f hf => ?_⟩
      · obtain ⟨d, subs, hmem2, hshape⟩ := shapeRel_cases hr
        have hd2 : isDirAt fs2 (m ++ r) = true := by
          rcases hshape with rfl | ⟨s, hs, rfl⟩
          · exact (mkTopDirs_dirs hTop hmem2).1 _ (ancestors_last (by simp))
          · exact (mkTopDirs_dirs hTop hmem2).2 s hs _ (ancestors_last (by simp))
        have hd3 : isDirAt fs3 (m ++ r) = true :=
          (hcft.2.2.2.2.1 (m ++ r)).trans hd2
        exact (runList_mono h4 (m ++ r)).1 hd3
      · have hd2 : isDirAt fs2 m = true :=
          (mkTopDirs_dirs hTop (show ("data", ["raw", "processed", "output"])
              ∈ directoriesTemplate by simp [directoriesTemplate])).1 m
            (ancestors_self_append hne ["data"])
        have hd3 : isDirAt fs3 m = true := (hcft.2.2.2.2.1 m).trans hd2
        exact (runList_mono h4 m).1 hd3
      · have hf3 : isFileAt fs3 (m ++ [f]) = true := hcft.2.2.2.1 f hf
        exact (runList_mono h4 (m ++ [f])).2 hf3
    · exact ih h4 hmem

theorem ok_bind {α β : Type} (a : α) (f : α → Except String β) :
    (Except.ok a >>= f) = f a := rfl

theorem runList_step {self : Module} {clock : Nat → String} {i : Nat}
    {m : Path} {rest : List Path} {fs fs1 fs2 fs3 fsR : FS}
    {b1 b2 b3 : Bool} {trR : List String}
    (h1 : self.create_module m fs = .ok (b1, fs1))
    (h2 : self.create_subdirectories m fs1 = .ok (b2, fs2))
    (h3 : self.create_files m (clock i) fs2 = .ok (b3, fs3))
    (h4 : runList self clock (i + 1) rest fs3 = .ok (fsR, trR)) :
    runList self clock i (m :: rest) fs
      = .ok (fsR, msgModule m b1 :: msgSubdirs m b2 :: msgFiles m b3 :: trR) := by
  simp only [runList, h1, ok_bind, h2, h3, h4]

theorem runList_length {self : Module} {clock : Nat → String} {i : Nat}
    {ns : List Path} {fs fs' : FS} {tr : List String}
    (h : runList self clock i ns fs = .ok (fs', tr)) :
    tr.length = 3 * ns.length := by
  induction ns generalizing i fs tr with
  | nil =>
    simp only [runList, Except.ok.injEq, Prod.mk.injEq] at h
    obtain ⟨rfl, rfl⟩ := h
    rfl
  | cons m rest ih =>
    obtain ⟨b1, fs1, b2, fs2, b3, fs3, trR, h1, h2, h3, h4, htr⟩ :=
      runList_cons_ok h
    subst htr
    have := ih h4
    simp only [List.length_cons, List.length_cons, this]
    omega

/-! ## The specification claims -/

/-- C1: after a normal run of the scaffolder, every requested valid module
name has its root directory, all 7 template subdirectories with all their
listed sub-subdirectories, and all 5 template files present on the final
filesystem. -/
theorem claim_C1 {ns : List Path} {clock : Nat → String} {fs fs' : FS}
    {tr : List String} {m : Path}
    (h : (Module.init ns).create_modules clock fs = .ok (fs', tr))
    (hm : m ∈ ns) (hv : validName m = true) :
    moduleTreeOk fs' m = true := by
  unfold Module.create_modules at h
  have hD : (Module.init ns).directories = directoriesTemplate := rfl
  have hF : (Module.init ns).files = filesTemplate := rfl
  have ht := runList_tree hD hF h hm
  have hne : m ≠ [] := by
    intro hc
    subst hc
    simp [validName] at hv
  unfold moduleTreeOk shapeDirsOk templateFilesOk
  rw [Bool.and_eq_true, Bool.and_eq_true]
  refine ⟨⟨ht.2.1 hne, ?_⟩, ?_⟩
  · rw [List.all_eq_true]
    exact fun r hr => ht.1 r hr
  · rw [List.all_eq_true]
    exact fun f hf => ht.2.2 f hf

/-- Witness for C1: the concrete blog run produces the full tree. -/
theorem claim_C1_witness : moduleTreeOk blogFS ["blog"] = true := by
  have hrun : (Module.init [["blog"]]).create_modules sampleClock []
      = .ok (blogFS, blogTrace) := rfl
  exact claim_C1 hrun (by simp) (by decide)

/-- C2: create_module returns false and does nothing when the path already
exists; when it does not exist (valid name, no file blocking an ancestor)
it creates the directory with every missing parent segment, changes nothing
else, and returns true. -/
theorem claim_C2 (self : Module) (m : Path) (fs : FS) :
    (pathExists fs m = true → self.create_module m fs = .ok (false, fs))
      ∧ (pathExists fs m = false → validName m = true →
          (∀ a ∈ ancestors m, isFileAt fs a = false) →
          self.create_module m fs = .ok (true, mkdirsPure fs (ancestors m))
            ∧ (∀ a ∈ ancestors m,
                isDirAt (mkdirsPure fs (ancestors m)) a = true)
            ∧ ∀ q, (∀ a ∈ ancestors m, q ≠ a) →
                lookupFS (mkdirsPure fs (ancestors m)) q = lookupFS fs q) := by
  constructor
  · intro hex
    unfold Module.create_module
    rw [if_pos hex]
  · intro hex hv hnf
    have h1 : mkdirsAux fs (ancestors m)
        = .ok (mkdirsPure fs (ancestors m)) := mkdirsAux_eq_pure hnf
    refine ⟨?_, fun a ha => mkdirsAux_dirs h1 ha,
      fun q hq => mkdirsPure_lookup_other hq⟩
    unfold Module.create_module
    rw [if_neg (by simp [hex])]
    unfold mkdirs
    rw [h1]
    rfl

/-- Witness for C2: both branches at concrete inputs. -/
theorem claim_C2_witness :
    (Module.init []).create_module ["a"] [(["a"], Entry.dir)]
        = .ok (false, [(["a"], Entry.dir)])
      ∧ (Module.init []).create_module ["a"] []
        = .ok (true, mkdirsPure [] (ancestors ["a"])) := by
  refine ⟨(claim_C2 (Module.init []) ["a"] [(["a"], Entry.dir)]).1 (by decide),
    ?_⟩
  exact ((claim_C2 (Module.init []) ["a"] []).2 (by decide) (by decide)
    (by decide)).1

/-- C3: create_subdirectories creates every template directory under the
module (tolerating pre-existing directories) and can only return true; on
any state where no file occupies a needed path it returns normally. -/
theorem claim_C3 (ns : List Path) (m : Path) (fs : FS) :
    (∀ b fs', (Module.init ns).create_subdirectories m fs = .ok (b, fs') →
        b = true ∧ shapeDirsOk fs' m = true)
      ∧ (validName m = true → noFileConflict fs m = true →
          isOkE ((Module.init ns).create_subdirectories m fs) = true) := by
  constructor
  · intro b fs' h
    obtain ⟨hb, hTop⟩ := create_subdirectories_ok h
    refine ⟨hb, ?_⟩
    unfold shapeDirsOk
    rw [List.all_eq_true]
    intro r hr
    obtain ⟨d, subs, hmem2, hshape⟩ := shapeRel_cases hr
    rcases hshape with rfl | ⟨s, hs, rfl⟩
    · exact (mkTopDirs_dirs hTop hmem2).1 _ (ancestors_last (by simp))
    · exact (mkTopDirs_dirs hTop hmem2).2 s hs _ (ancestors_last (by simp))
  · intro hv hnc
    have hnf : ∀ p ∈ directoriesTemplate,
        (∀ a ∈ ancestors (m ++ [p.1]), isFileAt fs a = false)
          ∧ ∀ s ∈ p.2, ∀ a ∈ ancestors (m ++ [p.1, s]),
              isFileAt fs a = false := by
      unfold noFileConflict at hnc
      rw [List.all_eq_true] at hnc
      intro p hp
      constructor
      · intro a ha
        have hr : [p.1] ∈ shapeRel := by
          unfold shapeRel
          rw [List.mem_flatMap]
          exact ⟨p, hp, List.mem_cons_self _ _⟩
        have h2 := hnc [p.1] hr
        rw [List.all_eq_true] at h2
        simpa using h2 a ha
      · intro s hs a ha
        have hr : [p.1, s] ∈ shapeRel := by
          unfold shapeRel
          rw [List.mem_flatMap]
          exact ⟨p, hp, List.mem_cons_of_mem _ (List.mem_map.mpr ⟨s, hs, rfl⟩)⟩
        have h2 := hnc [p.1, s] hr
        rw [List.all_eq_true] at h2
        simpa using h2 a ha
    obtain ⟨fs', hok, _⟩ := mkTopDirs_ok_of_noFile hnf
    have heq : (Module.init ns).create_subdirectories m fs = .ok (true, fs') := by
      unfold Module.create_subdirectories
      rw [show (Module.init ns).directories = directoriesTemplate from rfl, hok]
      rfl
    rw [heq]
    rfl

/-- Witness for C3: both conjuncts at the concrete module a run. -/
theorem claim_C3_witness :
    (true = true ∧ shapeDirsOk (okBFS subRunA []) ["a"] = true)
      ∧ isOkE ((Module.init []).create_subdirectories ["a"] []) = true := by
  constructor
  · exact (claim_C3 [] ["a"] []).1 true (okBFS subRunA []) rfl
  · exact (claim_C3 [] ["a"] []).2 (by decide) (by decide)

/-- C4: create_files returns false at once and writes nothing when the file
template is empty; on the real template a normal return writes every
template file under the module root and returns true. -/
theorem claim_C4 (self : Module) (ns : List Path) (m : Path) (now : String)
    (fs : FS) :
    (self.files = [] → self.create_files m now fs = .ok (false, fs))
      ∧ ∀ b fs', (Module.init ns).create_files m now fs = .ok (b, fs') →
          b = true ∧ templateFilesOk fs' m = true := by
  constructor
  · intro hl
    simp only [Module.create_files, hl]
  · intro b fs' h
    have hc := create_files_template rfl h
    refine ⟨hc.1, ?_⟩
    unfold templateFilesOk
    rw [List.all_eq_true]
    exact fun f hf => hc.2.2.2.1 f hf

/-- Witness for C4: the empty-template module and the concrete blog file
step. -/
theorem claim_C4_witness :
    emptyModule.create_files ["m"] "TS" [] = .ok (false, [])
      ∧ (true = true ∧ templateFilesOk (okBFS filesRunBlog []) ["blog"] = true) := by
  constructor
  · exact (claim_C4 emptyModule [] ["m"] "TS" []).1 rfl
  · exact (claim_C4 (Module.init []) [] ["blog"] "TS"
      [(["blog"], Entry.dir)]).2 true (okBFS filesRunBlog []) rfl

/-- C5: the first file template entry is written with the README stub
(heading with the capitalized name, timestamp line, empty Author line,
blank line, empty Description heading) and every other template file is
written empty; scaffolding blog yields a README whose first line is
# Blog. -/
theorem claim_C5 :
    (∀ (ns : List Path) (m : Path) (now : String) (fs : FS) (b : Bool)
        (fs' : FS), validName m = true →
        (Module.init ns).create_files m now fs = .ok (b, fs') →
        lookupFS fs' (m ++ ["README.md"])
            = some (.file ("# " ++ pyCapitalize (renderPath m)
                ++ "\nCreated -> " ++ now ++ "\nAuthor -> \n\n## Description\n\n"))
          ∧ ∀ f ∈ ["CONTRIBUTING.md", "LICENSE", "package.json", ".gitignore"],
              lookupFS fs' (m ++ [f]) = some (.file ""))
      ∧ firstLine (contentAt blogFS ["blog", "README.md"]) = "# Blog"
      ∧ contentAt blogFS ["blog", "README.md"]
          = "# Blog\nCreated -> 2024-01-01 00:00:00\nAuthor -> \n\n## Description\n\n"
      ∧ ∀ f ∈ ["CONTRIBUTING.md", "LICENSE", "package.json", ".gitignore"],
          contentAt blogFS ["blog", f] = "" := by
  refine ⟨?_, by decide, by decide, by decide⟩
  intro ns m now fs b fs' hv h
  have hc := create_files_template rfl h
  exact ⟨hc.2.1, hc.2.2.1⟩

/-- Witness for C5: the general content formula at the concrete blog file
step. -/
theorem claim_C5_witness :
    lookupFS (okBFS filesRunBlog []) (["blog"] ++ ["README.md"])
      = some (.file ("# " ++ pyCapitalize (renderPath ["blog"])
          ++ "\nCreated -> " ++ "TS" ++ "\nAuthor -> \n\n## Description\n\n")) :=
  (claim_C5.1 [] ["blog"] "TS" [(["blog"], Entry.dir)] true
    (okBFS filesRunBlog []) (by decide) rfl).1

/-- C6: a second run on the same module never errors and leaves the same
directory set, while the README is overwritten with the fresh timestamp and
the other four files stay empty. -/
theorem claim_C6 {m : Path} {c1 c2 : Nat → String} {fs fs1 : FS}
    {tr1 : List String} (hv : validName m = true)
    (h : (Module.init [m]).create_modules c1 fs = .ok (fs1, tr1)) :
    isOkRun ((Module.init [m]).create_modules c2 fs1) = true
      ∧ (∀ q, isDirAt (okFS ((Module.init [m]).create_modules c2 fs1) fs1) q
          = isDirAt fs1 q)
      ∧ lookupFS (okFS ((Module.init [m]).create_modules c2 fs1) fs1)
          (m ++ ["README.md"]) = some (.file (readmeContent m (c2 0)))
      ∧ ∀ f ∈ ["CONTRIBUTING.md", "LICENSE", "package.json", ".gitignore"],
          lookupFS (okFS ((Module.init [m]).create_modules c2 fs1) fs1)
            (m ++ [f]) = some (.file "") := by
  have hne : m ≠ [] := by
    intro hc
    subst hc
    simp [validName] at hv
  unfold Module.create_modules at h
  obtain ⟨b1, fsA, b2, fsB, b3, fsC, trR, h1, h2, h3, h4, htr⟩ :=
    runList_cons_ok h
  simp only [runList, Except.ok.injEq, Prod.mk.injEq] at h4
  obtain ⟨hfs, htrR⟩ := h4
  have hfs2 : fs1 = fsC := hfs.symm
  subst hfs2
  have hTop : mkTopDirs m directoriesTemplate fsA = .ok fsB :=
    (create_subdirectories_ok h2).2
  have hcft := create_files_template rfl h3
  have hdirEq : ∀ q, isDirAt fs1 q = isDirAt fsB q := hcft.2.2.2.2.1
  have hdirs : ∀ p ∈ directoriesTemplate,
      (∀ a ∈ ancestors (m ++ [p.1]), lookupFS fs1 a = some .dir)
        ∧ ∀ s ∈ p.2, ∀ a ∈ ancestors (m ++ [p.1, s]),
            lookupFS fs1 a = some .dir := by
    intro p hp
    have hd := mkTopDirs_dirs hTop (show (p.1, p.2) ∈ directoriesTemplate from hp)
    constructor
    · intro a ha
      refine isDirAt_iff.mp ?_
      rw [hdirEq a]
      exact hd.1 a ha
    · intro s hs a ha
      refine isDirAt_iff.mp ?_
      rw [hdirEq a]
      exact hd.2 s hs a ha
  have hroot : isDirAt fs1 m = true := by
    rw [hdirEq m]
    exact (mkTopDirs_dirs hTop (show ("data", ["raw", "processed", "output"])
        ∈ directoriesTemplate by simp [directoriesTemplate])).1 m
      (ancestors_self_append hne ["data"])
  have hfiles : ∀ f ∈ filesTemplate, isFileAt fs1 (m ++ [f]) = true :=
    hcft.2.2.2.1
  have s1 : (Module.init [m]).create_module m fs1 = .ok (false, fs1) := by
    have hex : pathExists fs1 m = true := by
      unfold pathExists
      rw [isDirAt_iff.mp hroot]
      rfl
    unfold Module.create_module
    rw [if_pos hex]
  have s2 : (Module.init [m]).create_subdirectories m fs1 = .ok (true, fs1) := by
    unfold Module.create_subdirectories
    rw [show (Module.init [m]).directories = directoriesTemplate from rfl,
      mkTopDirs_id hdirs]
    rfl
  have s3 : (Module.init [m]).create_files m (c2 0) fs1
      = .ok (true, writeAllPure m "README.md" (c2 0) filesTemplate fs1) := by
    show (writeAll m "README.md" (c2 0) filesTemplate fs1
        >>= fun fs' => .ok (true, fs')) = _
    rw [writeAll_of_files hfiles]
    rfl
  have s4 : runList (Module.init [m]) c2 1 []
      (writeAllPure m "README.md" (c2 0) filesTemplate fs1)
      = .ok (writeAllPure m "README.md" (c2 0) filesTemplate fs1, []) := rfl
  have hrun2 : (Module.init [m]).create_modules c2 fs1
      = .ok (writeAllPure m "README.md" (c2 0) filesTemplate fs1,
          [msgModule m false, msgSubdirs m true, msgFiles m true]) := by
    unfold Module.create_modules
    exact runList_step s1 s2 s3 s4
  rw [hrun2]
  have hnd : filesTemplate.Nodup := by decide
  refine ⟨rfl, fun q => writeAllPure_isDirAt hfiles, ?_, ?_⟩
  · have hw := @writeAllPure_content m "README.md" (c2 0) filesTemplate fs1
      "README.md" hnd (by decide)
    rw [if_pos rfl] at hw
    exact hw
  · intro f hf
    simp only [List.mem_cons, List.not_mem_nil, or_false] at hf
    rcases hf with rfl | rfl | rfl | rfl
    · have hw := @writeAllPure_content m "README.md" (c2 0) filesTemplate fs1
        "CONTRIBUTING.md" hnd (by decide)
      rwa [if_neg (by decide)] at hw
    · have hw := @writeAllPure_content m "README.md" (c2 0) filesTemplate fs1
        "LICENSE" hnd (by decide)
      rwa [if_neg (by decide)] at hw
    · have hw := @writeAllPure_content m "README.md" (c2 0) filesTemplate fs1
        "package.json" hnd (by decide)
      rwa [if_neg (by decide)] at hw
    · have hw := @writeAllPure_content m "README.md" (c2 0) filesTemplate fs1
        ".gitignore" hnd (by decide)
      rwa [if_neg (by decide)] at hw

/-- Witness for C6: the second blog run succeeds, keeps the directory set
and refreshes the README timestamp. -/
theorem claim_C6_witness :
    isOkRun ((Module.init [["blog"]]).create_modules sampleClock2 blogFS) = true
      ∧ isDirAt (okFS ((Module.init [["blog"]]).create_modules sampleClock2
          blogFS) blogFS) ["blog", "data"] = isDirAt blogFS ["blog", "data"]
      ∧ lookupFS (okFS ((Module.init [["blog"]]).create_modules sampleClock2
          blogFS) blogFS) (["blog"] ++ ["README.md"])
          = some (.file (readmeContent ["blog"] (sampleClock2 0))) := by
  have h := @claim_C6 ["blog"] sampleClock sampleClock2 [] blogFS blogTrace
    (by decide)
    (show (Module.init [["blog"]]).create_modules sampleClock []
        = .ok (blogFS, blogTrace) from rfl)
  exact ⟨h.1, h.2.1 ["blog", "data"], h.2.2.1⟩

/-- C7: modules are processed strictly in input order with the three steps
run in sequence and one report line per step, the later steps running even
when create_module reported false; a normal run logs exactly three lines
per module. -/
theorem claim_C7 :
    (∀ (self : Module) (clock : Nat → String) (i : Nat) (m : Path)
        (rest : List Path) (fs fs1 fs2 fs3 fsR : FS) (b1 b2 b3 : Bool)
        (trR : List String),
        self.create_module m fs = .ok (b1, fs1) →
        self.create_subdirectories m fs1 = .ok (b2, fs2) →
        self.create_files m (clock i) fs2 = .ok (b3, fs3) →
        runList self clock (i + 1) rest fs3 = .ok (fsR, trR) →
        runList self clock i (m :: rest) fs
          = .ok (fsR, msgModule m b1 :: msgSubdirs m b2 :: msgFiles m b3 :: trR))
      ∧ ∀ (self : Module) (clock : Nat → String) (fs fs' : FS)
          (tr : List String),
          self.create_modules clock fs = .ok (fs', tr) →
          tr.length = 3 * self.module_names.length := by
  constructor
  · intro self clock i m rest fs fs1 fs2 fs3 fsR b1 b2 b3 trR h1 h2 h3 h4
    exact runList_step h1 h2 h3 h4
  · intro self clock fs fs' tr h
    unfold Module.create_modules at h
    exact runList_length h

/-- Witness for C7: one module whose root step failed still gets its
subdirectory and file steps and their report lines; the blog run logs three
lines. -/
theorem claim_C7_witness :
    runList (Module.init [["blog"]]) sampleClock 0 [["blog"]] preFS
        = .ok (preFilesFS, [msgModule ["blog"] false,
            msgSubdirs ["blog"] true, msgFiles ["blog"] true])
      ∧ blogTrace.length = 3 * (Module.init [["blog"]]).module_names.length := by
  constructor
  · exact claim_C7.1 (Module.init [["blog"]]) sampleClock 0 ["blog"] []
      preFS preFS preSubFS preFilesFS preFilesFS false true true [] rfl rfl
      rfl rfl
  · exact claim_C7.2 (Module.init [["blog"]]) sampleClock [] blogFS blogTrace
      rfl

/-- C8: with zero module-name arguments main prints the usage line naming
the invoking command and exits 1 with the filesystem untouched; with
arguments, a normal completion exits 0 whatever the per-step outcomes
were. -/
theorem claim_C8 (prog : String) (argv : List String) (clock : Nat → String)
    (fs : FS) (out : MainOut) :
    mainRun [prog] clock fs
        = .ok { exitCode := 1, fs := fs,
                stdout := ["Start",
                  "Usage: " ++ prog ++ " <module_names>\nExiting..."],
                logLines := [] }
      ∧ (2 ≤ argv.length → mainRun argv clock fs = .ok out →
          out.exitCode = 0) := by
  constructor
  · unfold mainRun
    rw [if_pos (by simp)]
    rfl
  · intro hlen h
    unfold mainRun at h
    rw [if_neg (by omega)] at h
    obtain ⟨a, h1, h2⟩ := bind_ok h
    obtain ⟨fs2, tr2⟩ := a
    simp only [Except.ok.injEq] at h2
    rw [← h2]

/-- Witness for C8: the usage branch on the bare program name, and exit 0
for a run in which the module-root step reported failed. -/
theorem claim_C8_witness :
    mainRun ["make_mod.py"] sampleClock []
        = .ok { exitCode := 1, fs := [],
                stdout := ["Start",
                  "Usage: " ++ "make_mod.py" ++ " <module_names>\nExiting..."],
                logLines := [] }
      ∧ mainPreOut.exitCode = 0 := by
  constructor
  · exact (claim_C8 "make_mod.py" [] sampleClock [] ⟨1, [], [], []⟩).1
  · exact (claim_C8 "x" ["make_mod.py", "blog"] sampleClock preFS
      mainPreOut).2 (by decide) (by rfl)

/-- C9: the directory and file templates are the fixed tables throughout a
run, and every module of one invocation receives the identical template
tree shape. -/
theorem claim_C9 {ns : List Path} {clock : Nat → String} {fs fs' : FS}
    {tr : List String}
    (h : (Module.init ns).create_modules clock fs = .ok (fs', tr)) :
    ((Module.init ns).directories = directoriesTemplate
        ∧ (Module.init ns).files = filesTemplate)
      ∧ ∀ m ∈ ns, shapeDirsOk fs' m = true := by
  refine ⟨⟨rfl, rfl⟩, fun m hm => ?_⟩
  unfold Module.create_modules at h
  have hD : (Module.init ns).directories = directoriesTemplate := rfl
  have hF : (Module.init ns).files = filesTemplate := rfl
  have ht := runList_tree hD hF h hm
  unfold shapeDirsOk
  rw [List.all_eq_true]
  exact fun r hr => ht.1 r hr

/-- Witness for C9: the two-module run gives a and b the same template
shape. -/
theorem claim_C9_witness :
    ((Module.init [["a"], ["b"]]).directories = directoriesTemplate
        ∧ (Module.init [["a"], ["b"]]).files = filesTemplate)
      ∧ shapeDirsOk abFS ["a"] = true ∧ shapeDirsOk abFS ["b"] = true := by
  have h := claim_C9 (show (Module.init [["a"], ["b"]]).create_modules
      sampleClock [] = .ok (abFS, abTrace) from rfl)
  exact ⟨h.1, h.2 ["a"] (by simp), h.2 ["b"] (by simp)⟩

/-- C10: the README heading applies Python str.capitalize to the whole
name, upper-casing the first character and lower-casing all the rest, so
myBlog yields the heading # Myblog and not # MyBlog. -/
theorem claim_C10 :
    (∀ (ns : List Path) (c : Char) (cs : List Char) (now : String) (fs : FS)
        (b : Bool) (fs' : FS),
        (Module.init ns).create_files [String.mk (c :: cs)] now fs
            = .ok (b, fs') →
        lookupFS fs' ([String.mk (c :: cs)] ++ ["README.md"])
          = some (.file ("# " ++ String.mk (c.toUpper :: cs.map Char.toLower)
              ++ "\nCreated -> " ++ now ++ "\nAuthor -> \n\n## Description\n\n")))
      ∧ firstLine (contentAt myBlogFS ["myBlog", "README.md"]) = "# Myblog"
      ∧ firstLine (contentAt myBlogFS ["myBlog", "README.md"]) ≠ "# MyBlog" := by
  refine ⟨?_, by decide, by decide⟩
  intro ns c cs now fs b fs' h
  exact (create_files_template rfl h).2.1

/-- Witness for C10: the content formula at the concrete myBlog file
step. -/
theorem claim_C10_witness :
    lookupFS (okBFS myFilesRun [])
        ([String.mk ['m', 'y', 'B', 'l', 'o', 'g']] ++ ["README.md"])
      = some (.file ("# "
          ++ String.mk ('m'.toUpper :: (['y', 'B', 'l', 'o', 'g'].map Char.toLower))
          ++ "\nCreated -> " ++ "TS" ++ "\nAuthor -> \n\n## Description\n\n")) :=
  claim_C10.1 [] 'm' ['y', 'B', 'l', 'o', 'g'] "TS"
    [([String.mk ['m', 'y', 'B', 'l', 'o', 'g']], Entry.dir)] true
    (okBFS myFilesRun []) rfl

end Scaffold
